import Mathlib

/-
  Verification development for the crypto data collection pipeline
  (crypto-analysis-portfolio/src/data_collection.py together with
  config/config.py).

  Numeric model: JSON numbers are embedded as rationals.  The derived
  columns returns and log_returns follow the numpy and pandas semantics
  on the special values that division and log can produce, embedded as
  extended scalar types with signed infinities and the missing value NaN.
  The natural log routine np.log is a parameter L of the pipeline, so that
  every pipeline definition stays computable; theorems instantiate L with
  the real natural logarithm.
-/

/-- Extended rational scalar: one cell of a pandas float column over exact
rationals, with the two signed infinities and the missing value NaN. -/
inductive QVal where
  | fin (x : ℚ)
  | pinf
  | ninf
  | nan
  deriving DecidableEq

/-- Extended real scalar, used for the log_returns column whose finite
values come from the natural logarithm. -/
inductive RVal where
  | fin (x : ℝ)
  | pinf
  | ninf
  | nan

/-- The pandas missing-value test isna on a float cell. -/
def QVal.isna : QVal → Bool
  | .nan => true
  | _ => false

/-- The pandas missing-value test isna on a real-valued cell. -/
def RVal.isna : RVal → Bool
  | .nan => true
  | _ => false

/-- Float division of finite cells with the numpy semantics on a zero
denominator: a nonzero numerator over zero is a signed infinity and zero
over zero is NaN; a NaN operand propagates.  Infinite operands never occur
in this pipeline, since the price column holds finite JSON numbers and
only the shift introduces NaN. -/
def qdiv : QVal → QVal → QVal
  | .fin a, .fin b =>
      if b = 0 then (if a = 0 then .nan else if 0 < a then .pinf else .ninf)
      else .fin (a / b)
  | _, _ => .nan

/-- Subtract one from a cell, with NaN and the infinities propagating; this
is the tail of the pandas pct_change computation. -/
def qSub1 : QVal → QVal
  | .fin x => .fin (x - 1)
  | .pinf => .pinf
  | .ninf => .ninf
  | .nan => .nan

/-- The numpy natural log on an extended cell: a positive finite cell goes
through the log routine L, log of zero is minus infinity, log of a negative
cell or of NaN or of minus infinity is NaN, and log of plus infinity is
plus infinity. -/
def qlog (L : ℚ → ℝ) : QVal → RVal
  | .fin x => if 0 < x then .fin (L x) else if x = 0 then .ninf else .nan
  | .pinf => .pinf
  | .ninf => .nan
  | .nan => .nan

/-- One row of the normalized DataFrame produced by get_historical_data:
the date index (the millisecond epoch value, since to_datetime is injective
on it), the three raw columns, the two derived columns, and the symbol
column that get_multiple_cryptos adds (none until tagged). -/
structure Record where
  date : ℚ
  price : ℚ
  market_cap : ℚ
  volume : ℚ
  returns : QVal
  log_returns : RVal
  symbol : Option String

/-- Default row, used only as the List.getD fallback inside statements. -/
def recD : Record :=
  { date := 0, price := 0, market_cap := 0, volume := 0,
    returns := QVal.nan, log_returns := RVal.nan, symbol := none }

/-- Uncaught Python exceptions that the conversion and persistence code can
raise: a missing dict key, a too-short item array, and the ValueError from
a ragged DataFrame literal or from pd.concat on an empty collection. -/
inductive PyErr where
  | keyError (k : String)
  | indexError
  | valueError
  deriving DecidableEq

/-- Outcome of session.get plus raise_for_status plus response.json() for
one market_chart request.  transportError covers a requests exception from
the GET or a non-2xx status; badJson covers an empty or unparseable body,
whose JSONDecodeError is a RequestException subclass and is caught by the
same except clause; ok carries the parsed JSON object as an association
list from key to an array of numeric arrays. -/
inductive HttpResult where
  | transportError
  | badJson
  | ok (data : List (String × List (List ℚ)))

/-- The Python subscript data[k] on a parsed JSON object: KeyError when the
key is absent. -/
def dictGet (k : String) (data : List (String × α)) : Except PyErr α :=
  match data.lookup k with
  | some v => Except.ok v
  | none => Except.error (PyErr.keyError k)

/-- The Python subscript item[0]: IndexError on an empty array. -/
def item0 : List ℚ → Except PyErr ℚ
  | [] => Except.error PyErr.indexError
  | x :: _ => Except.ok x

/-- The Python subscript item[1]: IndexError on an array with fewer than
two entries. -/
def item1 : List ℚ → Except PyErr ℚ
  | _ :: y :: _ => Except.ok y
  | _ => Except.error PyErr.indexError

/-- A list comprehension over a fallible per-item expression: the first
raised exception wins, as in Python. -/
def mapExc (f : α → Except PyErr β) : List α → Except PyErr (List β)
  | [] => Except.ok []
  | x :: xs => do
      let y ← f x
      let ys ← mapExc f xs
      Except.ok (y :: ys)

/-- Row t of price.pct_change(): NaN at row 0 because the shifted price is
NaN there, otherwise price at t over price at t-1, minus one, under float
semantics. -/
def returnsAt (ps : List ℚ) (t : ℕ) : QVal :=
  if t = 0 then QVal.nan
  else qSub1 (qdiv (QVal.fin (ps.getD t 0)) (QVal.fin (ps.getD (t - 1) 0)))

/-- Row t of np.log of price over price.shift(1): NaN at row 0, otherwise
the numpy log of the float quotient. -/
def logReturnsAt (L : ℚ → ℝ) (ps : List ℚ) (t : ℕ) : RVal :=
  if t = 0 then RVal.nan
  else qlog L (qdiv (QVal.fin (ps.getD t 0)) (QVal.fin (ps.getD (t - 1) 0)))

/-- The DataFrame that get_historical_data builds from its four equal
length column lists: the timestamps become the date index and the two
derived columns are computed from the price column. -/
def buildRecords (L : ℚ → ℝ) (tss ps caps vols : List ℚ) : List Record :=
  (List.range ps.length).map (fun t =>
    { date := tss.getD t 0, price := ps.getD t 0, market_cap := caps.getD t 0,
      volume := vols.getD t 0, returns := returnsAt ps t,
      log_returns := logReturnsAt L ps t, symbol := none })

/-- The collector method get_historical_data.  The except clause catches
only RequestException, so a transport failure or an unparseable body gives
an empty DataFrame, while KeyError, IndexError and ValueError raised by the
conversion step propagate to the caller.  The subscripts follow the Python
evaluation order of the DataFrame literal, and the DataFrame constructor
raises ValueError when the column lists disagree in length. -/
def get_historical_data (L : ℚ → ℝ) : HttpResult → Except PyErr (List Record)
  | HttpResult.transportError => Except.ok []
  | HttpResult.badJson => Except.ok []
  | HttpResult.ok data => do
      let pricesArr ← dictGet "prices" data
      let tss ← mapExc item0 pricesArr
      let ps ← mapExc item1 pricesArr
      let capsArr ← dictGet "market_caps" data
      let caps ← mapExc item1 capsArr
      let volsArr ← dictGet "total_volumes" data
      let vols ← mapExc item1 volsArr
      if tss.length = ps.length ∧ ps.length = caps.length ∧ caps.length = vols.length then
        Except.ok (buildRecords L tss ps caps vols)
      else Except.error PyErr.valueError

/-- The assignment df[symbol] = symbol: tag every row of the frame. -/
def setSymbol (sym : String) (r : Record) : Record :=
  { r with symbol := some sym }

/-- Python dict assignment results[k] = v: overwrite in place when the key
exists, append otherwise. -/
def insertA (k : String) (v : α) : List (String × α) → List (String × α)
  | [] => [(k, v)]
  | p :: rest => if p.1 = k then (k, v) :: rest else p :: insertA k v rest

/-- The loop of get_multiple_cryptos over the remaining dict entries, with
the results dict accumulated so far.  The pause between fetches has no
observable effect in this model and is omitted. -/
def gmcGo (L : ℚ → ℝ) (fetch : String → HttpResult) :
    List (String × String) → List (String × List Record) →
    Except PyErr (List (String × List Record))
  | [], results => Except.ok results
  | (cid, sym) :: rest, results => do
      let df ← get_historical_data L (fetch cid)
      if df.isEmpty then gmcGo L fetch rest results
      else gmcGo L fetch rest (insertA sym (df.map (setSymbol sym)) results)

/-- get_multiple_cryptos: iterate the configured dict in order, skip any
asset whose DataFrame came back empty, tag each success with its display
symbol and key the results dict by that symbol. -/
def get_multiple_cryptos (L : ℚ → ℝ) (fetch : String → HttpResult)
    (crypto_dict : List (String × String)) :
    Except PyErr (List (String × List Record)) :=
  gmcGo L fetch crypto_dict []

/-- Whether the collector obtains a nonempty DataFrame for one dict entry,
as a boolean on the entry; this is the success test of the orchestrator
loop. -/
def fetchOk (L : ℚ → ℝ) (fetch : String → HttpResult) (q : String × String) : Bool :=
  match get_historical_data L (fetch q.1) with
  | Except.ok df => !df.isEmpty
  | Except.error _ => false

/-- The asset map CRYPTOCURRENCIES of config.py, in its source order. -/
def CRYPTOCURRENCIES : List (String × String) :=
  [("bitcoin", "BTC"), ("ethereum", "ETH"), ("cardano", "ADA"),
   ("polkadot", "DOT"), ("solana", "SOL"), ("chainlink", "LINK")]

/-- RAW_DATA_DIR of config.py, the join of DATA_DIR and the raw folder. -/
def RAW_DATA_DIR : String := "data" ++ "/" ++ "raw"

/-- The per-asset file name f-string of save_data. -/
def mkFilename (pfx sym ts : String) : String :=
  pfx ++ "_" ++ sym ++ "_" ++ ts ++ ".csv"

/-- os.path.join of RAW_DATA_DIR with a file name. -/
def mkFilepath (filename : String) : String :=
  RAW_DATA_DIR ++ "/" ++ filename

/-- Content of one written CSV file: either a single-asset frame, or the
combined frame from pd.concat over the dict values with the dict keys as
the added outer index, whose rows therefore carry their symbol. -/
inductive FileContent where
  | single (df : List Record)
  | stacked (rows : List (String × Record))

/-- save_data, with the single datetime.now() timestamp of the invocation
passed as the ts argument: that call happens exactly once, before the write
loop, and both the per-asset names and the combined name interpolate the
same ts.  Per-asset files are written in dict order, then pd.concat on an
empty collection raises ValueError because it has no objects to
concatenate. -/
def save_data (data_dict : List (String × List Record)) (pfx ts : String) :
    Except PyErr (List (String × FileContent)) :=
  let assetFiles := data_dict.map (fun p =>
    (mkFilepath (mkFilename pfx p.1 ts), FileContent.single p.2))
  if data_dict.isEmpty then Except.error PyErr.valueError
  else
    Except.ok (assetFiles ++
      [(mkFilepath (mkFilename pfx "combined" ts),
        FileContent.stacked (data_dict.flatMap (fun p => p.2.map (fun r => (p.1, r)))))])

/-- One quote row of the simple/price response for one asset id. -/
structure QuoteRow where
  usd : ℚ
  usd_market_cap : ℚ
  usd_24h_vol : ℚ
  usd_24h_change : ℚ
  deriving DecidableEq

/-- The query parameters of the simple/price GET request. -/
structure SnapshotRequest where
  ids : String
  vs_currencies : String
  include_market_cap : String
  include_24hr_vol : String
  include_24hr_change : String
  deriving DecidableEq

/-- The one request that get_current_prices builds: the requested ids are
comma-joined into a single ids parameter. -/
def mkSnapshotRequest (crypto_ids : List String) : SnapshotRequest :=
  { ids := String.intercalate "," crypto_ids, vs_currencies := "usd",
    include_market_cap := "true", include_24hr_vol := "true",
    include_24hr_change := "true" }

/-- Outcome of the snapshot GET: as for the chart endpoint, transport
failures and an unparseable body are caught by the except clause; ok
carries the parsed mapping from asset id to its quote row. -/
inductive SnapshotResponse where
  | transportError
  | badJson
  | ok (body : List (String × QuoteRow))

/-- get_current_prices.  The first component of the result records the
requests issued, exactly one GET per invocation; the second is the
resulting table, whose rows are the parsed mapping indexed by crypto_id
through from_dict and reset_index, and which is empty on any caught
failure. -/
def get_current_prices (crypto_ids : List String)
    (transport : SnapshotRequest → SnapshotResponse) :
    List SnapshotRequest × List (String × QuoteRow) :=
  let req := mkSnapshotRequest crypto_ids
  match transport req with
  | SnapshotResponse.transportError => ([req], [])
  | SnapshotResponse.badJson => ([req], [])
  | SnapshotResponse.ok body => ([req], body)

/-- Result of the main driver: either the files written by save_data, or
the nothing-collected notice. -/
inductive MainResult where
  | saved (writes : List (String × FileContent))
  | nothingCollected

/-- The main driver: collect all configured assets, then, when the results
dict is truthy, preview each series and save it; otherwise print the
nothing-collected notice.  The preview reads iloc[-30] of each price
column, which raises IndexError on a series shorter than thirty rows.
Exceptions from collection, preview and save all propagate. -/
def mainDriver (L : ℚ → ℝ) (fetch : String → HttpResult) (ts : String) :
    Except PyErr MainResult := do
  let data ← get_multiple_cryptos L fetch CRYPTOCURRENCIES
  if data.isEmpty then
    Except.ok MainResult.nothingCollected
  else if data.all (fun p => 30 ≤ p.2.length) then do
    let w ← save_data data "crypto_data" ts
    Except.ok (MainResult.saved w)
  else Except.error PyErr.indexError

/-- A well-shaped market_chart body: the three parallel arrays of
timestamp and value pairs, as the JSON object the endpoint documents. -/
def rawBody (ps mcs vols : List (ℚ × ℚ)) : List (String × List (List ℚ)) :=
  [("prices", ps.map (fun x => [x.1, x.2])),
   ("market_caps", mcs.map (fun x => [x.1, x.2])),
   ("total_volumes", vols.map (fun x => [x.1, x.2]))]

/-- A trivial concrete log routine used by witnesses that never inspect a
finite log value. -/
def LW : ℚ → ℝ := fun _ => 0

/-- A concrete fetch oracle for witnesses: the bitcoin request fails at the
transport level, every other asset returns a one-day well-shaped body. -/
def fetchW : String → HttpResult := fun cid =>
  if cid = "bitcoin" then HttpResult.transportError
  else HttpResult.ok (rawBody [(1, 2)] [(1, 3)] [(1, 4)])

/-- A concrete fetch oracle for witnesses: both assets succeed, with
distinguishable one-day bodies. -/
def fetch2 : String → HttpResult := fun cid =>
  if cid = "a" then HttpResult.ok (rawBody [(1, 2)] [(1, 2)] [(1, 2)])
  else HttpResult.ok (rawBody [(1, 5)] [(1, 5)] [(1, 5)])

/-- The single record that the fetchW oracle produces for a non-bitcoin
asset, before tagging. -/
def recW : Record :=
  { date := 1, price := 2, market_cap := 3, volume := 4,
    returns := QVal.nan, log_returns := RVal.nan, symbol := none }

/-- The single record that the fetch2 oracle produces, with value p in the
three raw columns, before tagging. -/
def rec2 (p : ℚ) : Record :=
  { date := 1, price := p, market_cap := p, volume := p,
    returns := QVal.nan, log_returns := RVal.nan, symbol := none }

/-- Looking up the prices key of a well-shaped body. -/
theorem dictGet_prices (ps mcs vols : List (ℚ × ℚ)) :
    dictGet "prices" (rawBody ps mcs vols) =
      Except.ok (ps.map (fun x => [x.1, x.2])) := rfl

/-- Looking up the market_caps key of a well-shaped body. -/
theorem dictGet_caps (ps mcs vols : List (ℚ × ℚ)) :
    dictGet "market_caps" (rawBody ps mcs vols) =
      Except.ok (mcs.map (fun x => [x.1, x.2])) := rfl

/-- Looking up the total_volumes key of a well-shaped body. -/
theorem dictGet_vols (ps mcs vols : List (ℚ × ℚ)) :
    dictGet "total_volumes" (rawBody ps mcs vols) =
      Except.ok (vols.map (fun x => [x.1, x.2])) := rfl

/-- Monadic bind on a successful Except value reduces to the continuation. -/
theorem ok_bind (a : α) (f : α → Except PyErr β) :
    (Except.ok a : Except PyErr α) >>= f = f a := rfl

/-- The timestamp comprehension over pair arrays extracts first entries. -/
theorem mapExc_item0_pairs (l : List (ℚ × ℚ)) :
    mapExc item0 (l.map (fun x => [x.1, x.2])) = Except.ok (l.map Prod.fst) := by
  induction l with
  | nil => rfl
  | cons x xs ih => simp [mapExc, item0, ih, ok_bind]

/-- The value comprehension over pair arrays extracts second entries. -/
theorem mapExc_item1_pairs (l : List (ℚ × ℚ)) :
    mapExc item1 (l.map (fun x => [x.1, x.2])) = Except.ok (l.map Prod.snd) := by
  induction l with
  | nil => rfl
  | cons x xs ih => simp [mapExc, item1, ih, ok_bind]

/-- On a well-shaped body with aligned arrays, get_historical_data reduces
to the built DataFrame over the extracted columns. -/
theorem get_historical_data_rawBody (L : ℚ → ℝ) (ps mcs vols : List (ℚ × ℚ))
    (h2 : mcs.length = ps.length) (h3 : vols.length = ps.length) :
    get_historical_data L (HttpResult.ok (rawBody ps mcs vols)) =
      Except.ok (buildRecords L (ps.map Prod.fst) (ps.map Prod.snd)
        (mcs.map Prod.snd) (vols.map Prod.snd)) := by
  simp [get_historical_data, dictGet_prices, dictGet_caps, dictGet_vols,
    mapExc_item0_pairs, mapExc_item1_pairs, ok_bind, h2, h3]

/-- Length of the built DataFrame is the length of the price column. -/
theorem buildRecords_length (L : ℚ → ℝ) (tss ps caps vols : List ℚ) :
    (buildRecords L tss ps caps vols).length = ps.length := by
  simp [buildRecords]

/-- Row t of the built DataFrame, for t in range. -/
theorem buildRecords_getD (L : ℚ → ℝ) (tss ps caps vols : List ℚ) (t : ℕ)
    (h : t < ps.length) :
    (buildRecords L tss ps caps vols).getD t recD =
      { date := tss.getD t 0, price := ps.getD t 0, market_cap := caps.getD t 0,
        volume := vols.getD t 0, returns := returnsAt ps t,
        log_returns := logReturnsAt L ps t, symbol := none } := by
  simp [buildRecords, List.getD_eq_getElem?_getD, List.getElem?_map,
    List.getElem?_range, h]

/-- An in-range getD value is a member of the list. -/
theorem getD_mem_of_lt {α : Type} (l : List α) (t : ℕ) (d : α) (h : t < l.length) :
    l.getD t d ∈ l := by
  rw [List.getD_eq_getElem?_getD, List.getElem?_eq_getElem h]
  exact List.getElem_mem h

/-- C1: for every valid raw response with N index-aligned timestamp and
value pairs in each of the three arrays (prices positive, as the data model
requires of a valid response), the conversion step of get_historical_data
produces exactly N records, whose returns and log_returns are the missing
value at index 0 and finite values at every index t greater than 0. -/
theorem claim_C1_normalization_shape (L : ℚ → ℝ) (ps mcs vols : List (ℚ × ℚ)) (N : ℕ)
    (h1 : ps.length = N) (h2 : mcs.length = N) (h3 : vols.length = N)
    (hpos : ∀ x ∈ ps, 0 < x.2) :
    ∃ df, get_historical_data L (HttpResult.ok (rawBody ps mcs vols)) = Except.ok df ∧
      df.length = N ∧
      (0 < N → (df.getD 0 recD).returns = QVal.nan ∧
        (df.getD 0 recD).log_returns = RVal.nan) ∧
      (∀ t, 0 < t → t < N →
        (∃ x, (df.getD t recD).returns = QVal.fin x) ∧
        (∃ y, (df.getD t recD).log_returns = RVal.fin y)) := by
  have hpos' : ∀ x ∈ ps.map Prod.snd, 0 < x := by
    intro x hx
    rcases List.mem_map.mp hx with ⟨p, hp, rfl⟩
    exact hpos p hp
  have hlen : (ps.map Prod.snd).length = N := by simpa using h1
  refine ⟨_, get_historical_data_rawBody L ps mcs vols (h2.trans h1.symm)
    (h3.trans h1.symm), ?_, ?_, ?_⟩
  · rw [buildRecords_length]; simpa using h1
  · intro hN
    rw [buildRecords_getD _ _ _ _ _ 0 (by rw [hlen]; exact hN)]
    exact ⟨by simp [returnsAt], by simp [logReturnsAt]⟩
  · intro t ht htN
    have ht0 : t ≠ 0 := Nat.pos_iff_ne_zero.mp ht
    have htlen : t < (ps.map Prod.snd).length := by rw [hlen]; exact htN
    have ht1len : t - 1 < (ps.map Prod.snd).length :=
      lt_of_le_of_lt (Nat.sub_le t 1) htlen
    rw [buildRecords_getD _ _ _ _ _ t htlen]
    have ha : 0 < (ps.map Prod.snd).getD t 0 :=
      hpos' _ (getD_mem_of_lt _ _ _ htlen)
    have hb : 0 < (ps.map Prod.snd).getD (t - 1) 0 :=
      hpos' _ (getD_mem_of_lt _ _ _ ht1len)
    have hb0 : (ps.map Prod.snd).getD (t - 1) 0 ≠ 0 := ne_of_gt hb
    constructor
    · refine ⟨(ps.map Prod.snd).getD t 0 / (ps.map Prod.snd).getD (t - 1) 0 - 1, ?_⟩
      simp only [returnsAt, if_neg ht0, qdiv, if_neg hb0, qSub1]
    · refine ⟨L ((ps.map Prod.snd).getD t 0 / (ps.map Prod.snd).getD (t - 1) 0), ?_⟩
      simp only [logReturnsAt, if_neg ht0, qdiv, if_neg hb0, qlog,
        if_pos (div_pos ha hb)]

/-- C1 witness: the shape property evaluated on a concrete two-day
response. -/
theorem claim_C1_normalization_shape_witness :
    ∃ df, get_historical_data (fun _ => (0 : ℝ))
        (HttpResult.ok (rawBody [(1, 2), (2, 3)] [(1, 5), (2, 6)] [(1, 7), (2, 8)])) =
        Except.ok df ∧
      df.length = 2 ∧
      (0 < 2 → (df.getD 0 recD).returns = QVal.nan ∧
        (df.getD 0 recD).log_returns = RVal.nan) ∧
      (∀ t, 0 < t → t < 2 →
        (∃ x, (df.getD t recD).returns = QVal.fin x) ∧
        (∃ y, (df.getD t recD).log_returns = RVal.fin y)) :=
  claim_C1_normalization_shape (fun _ => (0 : ℝ))
    [(1, 2), (2, 3)] [(1, 5), (2, 6)] [(1, 7), (2, 8)] 2 rfl rfl rfl (by decide)

/-- Case analysis of the numpy log of a float quotient of finite cells,
according to the signs of numerator a and denominator b. -/
theorem qlog_qdiv_cases (L : ℚ → ℝ) (a b : ℚ) :
    ((0 < b ∧ 0 < a) ∨ (b < 0 ∧ a < 0) →
      qlog L (qdiv (QVal.fin a) (QVal.fin b)) = RVal.fin (L (a / b))) ∧
    (b = 0 → 0 < a → qlog L (qdiv (QVal.fin a) (QVal.fin b)) = RVal.pinf) ∧
    (b = 0 → a ≤ 0 → (qlog L (qdiv (QVal.fin a) (QVal.fin b))).isna = true) ∧
    (b ≠ 0 → a = 0 → qlog L (qdiv (QVal.fin a) (QVal.fin b)) = RVal.ninf) ∧
    (b < 0 → 0 < a → (qlog L (qdiv (QVal.fin a) (QVal.fin b))).isna = true) ∧
    (0 < b → a < 0 → (qlog L (qdiv (QVal.fin a) (QVal.fin b))).isna = true) := by
  refine ⟨?_, ?_, ?_, ?_, ?_, ?_⟩
  · rintro (⟨hb, ha⟩ | ⟨hb, ha⟩)
    · simp only [qdiv, if_neg (ne_of_gt hb), qlog, if_pos (div_pos ha hb)]
    · simp only [qdiv, if_neg (ne_of_lt hb), qlog,
        if_pos (div_pos_of_neg_of_neg ha hb)]
  · intro hb ha
    simp only [qdiv, if_pos hb, if_neg (ne_of_gt ha), if_pos ha, qlog]
  · intro hb ha
    rcases lt_or_eq_of_le ha with h | h
    · simp only [qdiv, if_pos hb, if_neg (ne_of_lt h), if_neg (not_lt.mpr ha),
        qlog, RVal.isna]
    · simp only [qdiv, if_pos hb, if_pos h, qlog, RVal.isna]
  · intro hb ha
    simp [qdiv, if_neg hb, ha, qlog]
  · intro hb ha
    have hq : a / b < 0 := div_neg_of_pos_of_neg ha hb
    simp only [qdiv, if_neg (ne_of_lt hb), qlog,
      if_neg (not_lt.mpr (le_of_lt hq)), if_neg (ne_of_lt hq), RVal.isna]
  · intro hb ha
    have hq : a / b < 0 := div_neg_of_neg_of_pos ha hb
    simp only [qdiv, if_neg (ne_of_gt hb), qlog,
      if_neg (not_lt.mpr (le_of_lt hq)), if_neg (ne_of_lt hq), RVal.isna]

/-- C2 as amended: for t greater than 0, log_returns at t is the natural
log of price at t over price at t-1 whenever that quotient is positive, in
particular whenever both prices are positive; but for a non-positive prior
price the cell is not always missing: it is plus infinity when the prior
price is zero and the current price is positive, missing when the prior
price is zero and the current price is non-positive, minus infinity when
the current price is zero and the prior one is not, and missing when the
two prices have strictly opposite signs. -/
theorem claim_C2_log_returns_value (ps mcs vols : List (ℚ × ℚ)) (N : ℕ)
    (h1 : ps.length = N) (h2 : mcs.length = N) (h3 : vols.length = N) :
    ∃ df, get_historical_data (fun q => Real.log (q : ℝ))
        (HttpResult.ok (rawBody ps mcs vols)) = Except.ok df ∧
      ∀ t, 0 < t → t < N →
        ((0 < (df.getD (t - 1) recD).price ∧ 0 < (df.getD t recD).price) ∨
           ((df.getD (t - 1) recD).price < 0 ∧ (df.getD t recD).price < 0) →
          (df.getD t recD).log_returns =
            RVal.fin (Real.log (((df.getD t recD).price : ℝ) /
              ((df.getD (t - 1) recD).price : ℝ)))) ∧
        ((df.getD (t - 1) recD).price = 0 → 0 < (df.getD t recD).price →
          (df.getD t recD).log_returns = RVal.pinf) ∧
        ((df.getD (t - 1) recD).price = 0 → (df.getD t recD).price ≤ 0 →
          ((df.getD t recD).log_returns).isna = true) ∧
        ((df.getD (t - 1) recD).price ≠ 0 → (df.getD t recD).price = 0 →
          (df.getD t recD).log_returns = RVal.ninf) ∧
        ((df.getD (t - 1) recD).price < 0 → 0 < (df.getD t recD).price →
          ((df.getD t recD).log_returns).isna = true) ∧
        (0 < (df.getD (t - 1) recD).price → (df.getD t recD).price < 0 →
          ((df.getD t recD).log_returns).isna = true) := by
  refine ⟨_, get_historical_data_rawBody _ ps mcs vols (h2.trans h1.symm)
    (h3.trans h1.symm), ?_⟩
  intro t ht htN
  have ht0 : t ≠ 0 := Nat.pos_iff_ne_zero.mp ht
  have hlen : (ps.map Prod.snd).length = N := by simpa using h1
  have htlen : t < (ps.map Prod.snd).length := by rw [hlen]; exact htN
  have ht1len : t - 1 < (ps.map Prod.snd).length :=
    lt_of_le_of_lt (Nat.sub_le t 1) htlen
  rw [buildRecords_getD _ _ _ _ _ t htlen, buildRecords_getD _ _ _ _ _ (t - 1) ht1len]
  simp only [logReturnsAt, if_neg ht0]
  have hc := qlog_qdiv_cases (fun q => Real.log (q : ℝ))
    ((ps.map Prod.snd).getD t 0) ((ps.map Prod.snd).getD (t - 1) 0)
  refine ⟨?_, hc.2.1, hc.2.2.1, hc.2.2.2.1, hc.2.2.2.2.1, hc.2.2.2.2.2⟩
  intro hsigns
  rw [hc.1 hsigns, Rat.cast_div]

/-- C2 witness: the amended property at a concrete two-day response with
positive prices, where the log value clause applies. -/
theorem claim_C2_log_returns_value_witness :
    ∃ df, get_historical_data (fun q => Real.log (q : ℝ))
        (HttpResult.ok (rawBody [(1, 2), (2, 3)] [(1, 5), (2, 6)] [(1, 7), (2, 8)])) =
        Except.ok df ∧
      ∀ t, 0 < t → t < 2 →
        ((0 < (df.getD (t - 1) recD).price ∧ 0 < (df.getD t recD).price) ∨
           ((df.getD (t - 1) recD).price < 0 ∧ (df.getD t recD).price < 0) →
          (df.getD t recD).log_returns =
            RVal.fin (Real.log (((df.getD t recD).price : ℝ) /
              ((df.getD (t - 1) recD).price : ℝ)))) ∧
        ((df.getD (t - 1) recD).price = 0 → 0 < (df.getD t recD).price →
          (df.getD t recD).log_returns = RVal.pinf) ∧
        ((df.getD (t - 1) recD).price = 0 → (df.getD t recD).price ≤ 0 →
          ((df.getD t recD).log_returns).isna = true) ∧
        ((df.getD (t - 1) recD).price ≠ 0 → (df.getD t recD).price = 0 →
          (df.getD t recD).log_returns = RVal.ninf) ∧
        ((df.getD (t - 1) recD).price < 0 → 0 < (df.getD t recD).price →
          ((df.getD t recD).log_returns).isna = true) ∧
        (0 < (df.getD (t - 1) recD).price → (df.getD t recD).price < 0 →
          ((df.getD t recD).log_returns).isna = true) :=
  claim_C2_log_returns_value [(1, 2), (2, 3)] [(1, 5), (2, 6)] [(1, 7), (2, 8)] 2
    rfl rfl rfl

/-- C2 counterexample to the claim as stated: with a prior price equal to
zero and a positive current price, the quotient is plus infinity and so is
its numpy log, so log_returns at index 1 is a defined, non-missing cell
even though the prior price is non-positive. -/
theorem claim_C2_counterexample :
    get_historical_data (fun q => Real.log (q : ℝ))
        (HttpResult.ok (rawBody [(1, 0), (2, 1)] [(1, 0), (2, 1)] [(1, 0), (2, 1)])) =
      Except.ok
        [{ date := 1, price := 0, market_cap := 0, volume := 0,
           returns := QVal.nan, log_returns := RVal.nan, symbol := none },
         { date := 2, price := 1, market_cap := 1, volume := 1,
           returns := QVal.pinf, log_returns := RVal.pinf, symbol := none }] ∧
    ([{ date := 1, price := 0, market_cap := 0, volume := 0,
        returns := QVal.nan, log_returns := RVal.nan, symbol := none },
      { date := 2, price := 1, market_cap := 1, volume := 1,
        returns := QVal.pinf, log_returns := RVal.pinf, symbol := none }].getD 0 recD).price ≤ 0 ∧
    (([{ date := 1, price := 0, market_cap := 0, volume := 0,
         returns := QVal.nan, log_returns := RVal.nan, symbol := none },
       { date := 2, price := 1, market_cap := 1, volume := 1,
         returns := QVal.pinf, log_returns := RVal.pinf, symbol := none }].getD 1 recD).log_returns).isna = false :=
  ⟨rfl, le_refl 0, rfl⟩

/-- C3 as amended: a transport failure, an empty or unparseable body, and a
well-shaped body with empty arrays all yield an empty series, because the
requests exceptions are caught; but a parseable payload that lacks the
expected prices array raises an uncaught KeyError instead of returning an
empty series. -/
theorem claim_C3_empty_only_for_caught_failures (L : ℚ → ℝ)
    (body : List (String × List (List ℚ))) :
    get_historical_data L HttpResult.transportError = Except.ok [] ∧
    get_historical_data L HttpResult.badJson = Except.ok [] ∧
    get_historical_data L (HttpResult.ok (rawBody [] [] [])) = Except.ok [] ∧
    (body.lookup "prices" = none →
      get_historical_data L (HttpResult.ok body) =
        Except.error (PyErr.keyError "prices")) := by
  refine ⟨rfl, rfl, rfl, ?_⟩
  intro h
  simp only [get_historical_data, dictGet, h]
  rfl

/-- C3 witness: a parseable error payload without the prices key, as the
source API returns when rate limited, raises the uncaught KeyError. -/
theorem claim_C3_empty_only_for_caught_failures_witness :
    List.lookup "prices" [("status", [[(429 : ℚ)]])] = none ∧
    get_historical_data (fun _ => (0 : ℝ)) (HttpResult.ok [("status", [[(429 : ℚ)]])]) =
      Except.error (PyErr.keyError "prices") :=
  ⟨rfl, (claim_C3_empty_only_for_caught_failures (fun _ => (0 : ℝ))
    [("status", [[(429 : ℚ)]])]).2.2.2 rfl⟩

/-- C3 counterexample to the claim as stated: the empty JSON object is a
malformed payload lacking the expected arrays, yet get_historical_data
raises KeyError on it rather than returning the empty series. -/
theorem claim_C3_counterexample :
    get_historical_data (fun _ => (0 : ℝ)) (HttpResult.ok []) =
      Except.error (PyErr.keyError "prices") ∧
    ¬ ∃ df, get_historical_data (fun _ => (0 : ℝ)) (HttpResult.ok []) = Except.ok df := by
  refine ⟨rfl, ?_⟩
  rintro ⟨df, h⟩
  exact Except.noConfusion h

/-- Monadic bind on a failed Except value short-circuits. -/
theorem error_bind (e : PyErr) (f : α → Except PyErr β) :
    (Except.error e : Except PyErr α) >>= f = Except.error e := rfl

/-- Dict assignment grows the dict by at most one entry. -/
theorem insertA_length {α : Type} (k : String) (v : α) (l : List (String × α)) :
    (insertA k v l).length ≤ l.length + 1 := by
  induction l with
  | nil => simp [insertA]
  | cons p rest ih =>
      simp only [insertA]
      split
      · simp only [List.length_cons]; omega
      · have := ih; simp only [List.length_cons]; omega

/-- Every entry after a dict assignment is the new pair or an old entry. -/
theorem mem_insertA {α : Type} {k : String} {v : α} {l : List (String × α)}
    {q : String × α} (h : q ∈ insertA k v l) : q = (k, v) ∨ q ∈ l := by
  induction l with
  | nil =>
      simp only [insertA, List.mem_singleton] at h
      exact Or.inl h
  | cons p rest ih =>
      simp only [insertA] at h
      by_cases hk : p.1 = k
      · rw [if_pos hk] at h
        rcases List.mem_cons.mp h with h' | h'
        · exact Or.inl h'
        · exact Or.inr (List.mem_cons_of_mem _ h')
      · rw [if_neg hk] at h
        rcases List.mem_cons.mp h with h' | h'
        · exact Or.inr (h' ▸ List.mem_cons_self _ _)
        · rcases ih h' with h'' | h''
          · exact Or.inl h''
          · exact Or.inr (List.mem_cons_of_mem _ h'')

/-- Dict assignment with a fresh key appends the new entry at the end. -/
theorem insertA_of_not_mem {α : Type} {k : String} (v : α)
    {l : List (String × α)} (h : k ∉ l.map Prod.fst) :
    insertA k v l = l ++ [(k, v)] := by
  induction l with
  | nil => rfl
  | cons p rest ih =>
      simp only [List.map_cons, List.mem_cons] at h
      push_neg at h
      simp only [insertA, if_neg (Ne.symm h.1), ih h.2, List.cons_append]

/-- Soundness of the orchestrator loop relative to a universe U of dict
entries: the results dict never exceeds the processed entries plus the
accumulator, and every entry of it is a nonempty series justified by a
successful fetch of some entry of U under its symbol. -/
theorem gmcGo_sound (L : ℚ → ℝ) (fetch : String → HttpResult)
    (U : List (String × String)) :
    ∀ (d : List (String × String)) (acc res : List (String × List Record)),
      (∀ q ∈ d, q ∈ U) →
      (∀ p ∈ acc, p.2 ≠ [] ∧ ∃ q ∈ U, q.2 = p.1 ∧
        ∃ df, get_historical_data L (fetch q.1) = Except.ok df ∧ df ≠ []) →
      gmcGo L fetch d acc = Except.ok res →
      res.length ≤ acc.length + d.length ∧
      ∀ p ∈ res, p.2 ≠ [] ∧ ∃ q ∈ U, q.2 = p.1 ∧
        ∃ df, get_historical_data L (fetch q.1) = Except.ok df ∧ df ≠ [] := by
  intro d
  induction d with
  | nil =>
      intro acc res hU hacc h
      simp only [gmcGo] at h
      injection h with h'
      subst h'
      exact ⟨by simp, hacc⟩
  | cons hd rest ih =>
      intro acc res hU hacc h
      obtain ⟨cid, sym⟩ := hd
      simp only [gmcGo] at h
      cases hdf : get_historical_data L (fetch cid) with
      | error e =>
          rw [hdf, error_bind] at h
          exact Except.noConfusion h
      | ok df =>
          rw [hdf, ok_bind] at h
          by_cases hemp : df.isEmpty
          · rw [if_pos hemp] at h
            have hres := ih acc res (fun q hq => hU q (List.mem_cons_of_mem _ hq)) hacc h
            refine ⟨?_, hres.2⟩
            have := hres.1
            simp only [List.length_cons]
            omega
          · rw [if_neg hemp] at h
            have hdfne : df ≠ [] := by
              intro hnil
              rw [hnil] at hemp
              exact hemp rfl
            have haccg : ∀ p ∈ insertA sym (df.map (setSymbol sym)) acc,
                p.2 ≠ [] ∧ ∃ q ∈ U, q.2 = p.1 ∧
                  ∃ df0, get_historical_data L (fetch q.1) = Except.ok df0 ∧ df0 ≠ [] := by
              intro p hp
              rcases mem_insertA hp with hnew | hold
              · subst hnew
                refine ⟨?_, (cid, sym), hU _ (List.mem_cons_self _ _), rfl, df, hdf, hdfne⟩
                simp [hdfne]
              · exact hacc p hold
            have hres := ih _ res (fun q hq => hU q (List.mem_cons_of_mem _ hq)) haccg h
            refine ⟨?_, hres.2⟩
            have h1 := hres.1
            have h2 := insertA_length sym (df.map (setSymbol sym)) acc
            simp only [List.length_cons]
            omega

/-- C4: whenever the orchestrator returns a collection, that collection has
at most as many entries as the input map, and every entry holds a nonempty
series obtained from a successful fetch of an input entry carrying that
symbol, so no failed asset appears and no entry is an empty placeholder. -/
theorem claim_C4_no_failed_assets_in_output (L : ℚ → ℝ) (fetch : String → HttpResult)
    (crypto_dict : List (String × String)) (res : List (String × List Record))
    (h : get_multiple_cryptos L fetch crypto_dict = Except.ok res) :
    res.length ≤ crypto_dict.length ∧
    ∀ p ∈ res, p.2 ≠ [] ∧ ∃ q ∈ crypto_dict, q.2 = p.1 ∧
      ∃ df, get_historical_data L (fetch q.1) = Except.ok df ∧ df ≠ [] := by
  have hres := gmcGo_sound L fetch crypto_dict crypto_dict [] res (fun q hq => hq)
    (fun p hp => absurd hp (List.not_mem_nil p)) h
  exact ⟨by simpa using hres.1, hres.2⟩

/-- C4 witness: a one-asset map whose only fetch fails yields the empty
collection, trivially satisfying the bound and the per-entry property. -/
theorem claim_C4_no_failed_assets_in_output_witness :
    ([] : List (String × List Record)).length ≤ [("bitcoin", "BTC")].length ∧
    ∀ p ∈ ([] : List (String × List Record)), p.2 ≠ [] ∧
      ∃ q ∈ [("bitcoin", "BTC")], q.2 = p.1 ∧
        ∃ df, get_historical_data (fun _ => (0 : ℝ))
          ((fun _ => HttpResult.transportError) q.1) = Except.ok df ∧ df ≠ [] :=
  claim_C4_no_failed_assets_in_output (fun _ => (0 : ℝ))
    (fun _ => HttpResult.transportError) [("bitcoin", "BTC")] [] rfl

/-- Key tracking for the orchestrator loop when the displayed symbols are
pairwise distinct and every fetch either fails at the transport level or
succeeds with a nonempty series: the loop cannot raise, and the keys of the
results dict are the accumulator keys followed by the symbols of exactly
the successful entries, in order. -/
theorem gmcGo_keys (L : ℚ → ℝ) (fetch : String → HttpResult) :
    ∀ (d : List (String × String)) (acc : List (String × List Record)),
      (d.map Prod.snd).Nodup →
      (∀ q ∈ d, q.2 ∉ acc.map Prod.fst) →
      (∀ q ∈ d, fetch q.1 = HttpResult.transportError ∨
        ∃ df, get_historical_data L (fetch q.1) = Except.ok df ∧ df ≠ []) →
      ∃ res, gmcGo L fetch d acc = Except.ok res ∧
        res.map Prod.fst = acc.map Prod.fst ++ (d.filter (fetchOk L fetch)).map Prod.snd := by
  intro d
  induction d with
  | nil =>
      intro acc _ _ _
      exact ⟨acc, rfl, by simp⟩
  | cons hd rest ih =>
      intro acc hnd hdisj hf
      obtain ⟨cid, sym⟩ := hd
      rw [List.map_cons] at hnd
      have hndc := List.nodup_cons.mp hnd
      rcases hf _ (List.mem_cons_self _ _) with hfail | ⟨df, hdf, hdfne⟩
      · have hok : get_historical_data L (fetch cid) = Except.ok [] := by
          rw [hfail]
          rfl
        have hfo : fetchOk L fetch (cid, sym) = false := by
          simp [fetchOk, hok]
        obtain ⟨res, hres, hkeys⟩ := ih acc hndc.2
          (fun q hq => hdisj q (List.mem_cons_of_mem _ hq))
          (fun q hq => hf q (List.mem_cons_of_mem _ hq))
        refine ⟨res, ?_, ?_⟩
        · simp only [gmcGo]
          rw [hok, ok_bind]
          simpa using hres
        · rw [hkeys,
            List.filter_cons_of_neg (show ¬fetchOk L fetch (cid, sym) = true by simp [hfo])]
      · have hempF : df.isEmpty = false := by
          cases df with
          | nil => exact absurd rfl hdfne
          | cons a l => rfl
        have hfo : fetchOk L fetch (cid, sym) = true := by
          simp [fetchOk, hdf, hempF]
        have hsymnot : sym ∉ acc.map Prod.fst := hdisj _ (List.mem_cons_self _ _)
        have hins := insertA_of_not_mem (df.map (setSymbol sym)) hsymnot
        have hdisj2 : ∀ q ∈ rest,
            q.2 ∉ (insertA sym (df.map (setSymbol sym)) acc).map Prod.fst := by
          intro q hq
          rw [hins, List.map_append, List.mem_append]
          rintro (hc | hc)
          · exact hdisj q (List.mem_cons_of_mem _ hq) hc
          · simp only [List.map_cons, List.map_nil, List.mem_singleton] at hc
            have hmem : q.2 ∈ List.map Prod.snd rest :=
              List.mem_map_of_mem Prod.snd hq
            rw [hc] at hmem
            exact hndc.1 hmem
        obtain ⟨res, hres, hkeys⟩ := ih (insertA sym (df.map (setSymbol sym)) acc)
          hndc.2 hdisj2 (fun q hq => hf q (List.mem_cons_of_mem _ hq))
        refine ⟨res, ?_, ?_⟩
        · simp only [gmcGo]
          rw [hdf, ok_bind, if_neg (show ¬df.isEmpty = true by simp [hempF])]
          exact hres
        · rw [hkeys, hins, List.map_append, List.filter_cons_of_pos hfo]
          simp

/-- C5: on any asset map with pairwise distinct tickers where every fetch
either fails at the transport level or succeeds with a nonempty series, the
orchestrator raises nothing, skips the failed assets and returns exactly
the successful tickers, in input order. -/
theorem claim_C5_batch_never_aborts (L : ℚ → ℝ) (fetch : String → HttpResult)
    (crypto_dict : List (String × String))
    (hnd : (crypto_dict.map Prod.snd).Nodup)
    (hf : ∀ q ∈ crypto_dict, fetch q.1 = HttpResult.transportError ∨
      ∃ df, get_historical_data L (fetch q.1) = Except.ok df ∧ df ≠ []) :
    ∃ res, get_multiple_cryptos L fetch crypto_dict = Except.ok res ∧
      res.map Prod.fst = (crypto_dict.filter (fetchOk L fetch)).map Prod.snd := by
  have hres := gmcGo_keys L fetch crypto_dict [] hnd
    (fun q _ => List.not_mem_nil q.2) hf
  simpa [get_multiple_cryptos] using hres

/-- C5 witness: the spec scenario where the bitcoin fetch fails with a
transport error and the ethereum fetch succeeds; the result holds exactly
the ETH key and no exception is raised. -/
theorem claim_C5_batch_never_aborts_witness :
    ∃ res, get_multiple_cryptos LW fetchW [("bitcoin", "BTC"), ("ethereum", "ETH")] =
        Except.ok res ∧
      res.map Prod.fst =
        ([("bitcoin", "BTC"), ("ethereum", "ETH")].filter (fetchOk LW fetchW)).map Prod.snd :=
  claim_C5_batch_never_aborts LW fetchW [("bitcoin", "BTC"), ("ethereum", "ETH")]
    (by decide)
    (by
      intro q hq
      simp only [List.mem_cons, List.not_mem_nil, or_false] at hq
      rcases hq with rfl | rfl
      · exact Or.inl rfl
      · exact Or.inr ⟨[recW], rfl, by simp⟩)

/-- Symbol tagging invariant of the orchestrator loop: every row of every
entry of the results dict carries the symbol under which it is keyed. -/
theorem gmcGo_symbols (L : ℚ → ℝ) (fetch : String → HttpResult) :
    ∀ (d : List (String × String)) (acc res : List (String × List Record)),
      (∀ p ∈ acc, ∀ r ∈ p.2, r.symbol = some p.1) →
      gmcGo L fetch d acc = Except.ok res →
      ∀ p ∈ res, ∀ r ∈ p.2, r.symbol = some p.1 := by
  intro d
  induction d with
  | nil =>
      intro acc res hacc h
      simp only [gmcGo] at h
      injection h with h'
      subst h'
      exact hacc
  | cons hd rest ih =>
      intro acc res hacc h
      obtain ⟨cid, sym⟩ := hd
      simp only [gmcGo] at h
      cases hdf : get_historical_data L (fetch cid) with
      | error e =>
          rw [hdf, error_bind] at h
          exact Except.noConfusion h
      | ok df =>
          rw [hdf, ok_bind] at h
          by_cases hemp : df.isEmpty
          · rw [if_pos hemp] at h
            exact ih acc res hacc h
          · rw [if_neg hemp] at h
            refine ih _ res ?_ h
            intro p hp
            rcases mem_insertA hp with hnew | hold
            · subst hnew
              intro r hr
              rcases List.mem_map.mp hr with ⟨r0, _, rfl⟩
              rfl
            · exact hacc p hold

/-- C8: every series stored in the orchestrator output under a ticker key
has its symbol field defined and equal to that key on every record. -/
theorem claim_C8_symbol_matches_key (L : ℚ → ℝ) (fetch : String → HttpResult)
    (crypto_dict : List (String × String)) (res : List (String × List Record))
    (h : get_multiple_cryptos L fetch crypto_dict = Except.ok res) :
    ∀ p ∈ res, ∀ r ∈ p.2, r.symbol = some p.1 :=
  gmcGo_symbols L fetch crypto_dict [] res
    (fun p hp => absurd hp (List.not_mem_nil p)) h

/-- C8 witness: on the concrete two-asset run whose ethereum fetch succeeds
the stored ETH series carries the ETH symbol on its record. -/
theorem claim_C8_symbol_matches_key_witness :
    (setSymbol "ETH" recW).symbol = some "ETH" :=
  claim_C8_symbol_matches_key LW fetchW [("bitcoin", "BTC"), ("ethereum", "ETH")]
    [("ETH", [setSymbol "ETH" recW])] rfl ("ETH", [setSymbol "ETH" recW])
    (List.mem_singleton.mpr rfl) (setSymbol "ETH" recW) (List.mem_singleton.mpr rfl)

/-- C10: the orchestrator output is keyed by display ticker, not by source
asset id: when two input entries share one ticker and both fetches succeed
with nonempty series, the later entry overwrites the earlier one, and the
output is strictly smaller than the input even though every fetch
succeeded. -/
theorem claim_C10_shared_ticker_overwrites (L : ℚ → ℝ) (fetch : String → HttpResult)
    (i1 i2 s : String) (df1 df2 : List Record) (hne : i1 ≠ i2)
    (h1 : get_historical_data L (fetch i1) = Except.ok df1) (hne1 : df1 ≠ [])
    (h2 : get_historical_data L (fetch i2) = Except.ok df2) (hne2 : df2 ≠ []) :
    get_multiple_cryptos L fetch [(i1, s), (i2, s)] =
      Except.ok [(s, df2.map (setSymbol s))] ∧
    ([(s, df2.map (setSymbol s))] : List (String × List Record)).length <
      ([(i1, s), (i2, s)] : List (String × String)).length := by
  have hem1 : df1.isEmpty = false := by
    cases df1 with
    | nil => exact absurd rfl hne1
    | cons a l => rfl
  have hem2 : df2.isEmpty = false := by
    cases df2 with
    | nil => exact absurd rfl hne2
    | cons a l => rfl
  constructor
  · simp only [get_multiple_cryptos, gmcGo]
    rw [h1, ok_bind, if_neg (show ¬df1.isEmpty = true by simp [hem1])]
    simp only [insertA]
    rw [h2, ok_bind, if_neg (show ¬df2.isEmpty = true by simp [hem2])]
    simp
  · exact Nat.one_lt_two

/-- C10 witness: two distinct asset ids sharing the ticker X, both fetches
succeeding with distinct one-day series; the result holds only the later
series under X and has one entry against two inputs. -/
theorem claim_C10_shared_ticker_overwrites_witness :
    get_multiple_cryptos LW fetch2 [("a", "X"), ("b", "X")] =
      Except.ok [("X", [rec2 5].map (setSymbol "X"))] ∧
    ([("X", [rec2 5].map (setSymbol "X"))] : List (String × List Record)).length <
      ([("a", "X"), ("b", "X")] : List (String × String)).length :=
  claim_C10_shared_ticker_overwrites LW fetch2 "a" "b" "X" [rec2 2] [rec2 5]
    (by decide) rfl (by simp) rfl (by simp)

/-- C7: the snapshot fetcher issues exactly one request, whose ids
parameter is the comma-joined identifier list; on a transport failure or a
malformed response it returns the empty table, and on success it returns
the whole parsed table, so there is no partial-success result. -/
theorem claim_C7_snapshot_single_request_empty_on_failure
    (crypto_ids : List String) (transport : SnapshotRequest → SnapshotResponse)
    (hne : crypto_ids ≠ []) :
    (get_current_prices crypto_ids transport).1 = [mkSnapshotRequest crypto_ids] ∧
    (mkSnapshotRequest crypto_ids).ids = String.intercalate "," crypto_ids ∧
    (transport (mkSnapshotRequest crypto_ids) = SnapshotResponse.transportError →
      (get_current_prices crypto_ids transport).2 = []) ∧
    (transport (mkSnapshotRequest crypto_ids) = SnapshotResponse.badJson →
      (get_current_prices crypto_ids transport).2 = []) ∧
    (∀ body, transport (mkSnapshotRequest crypto_ids) = SnapshotResponse.ok body →
      (get_current_prices crypto_ids transport).2 = body) := by
  refine ⟨?_, rfl, ?_, ?_, ?_⟩
  · cases htr : transport (mkSnapshotRequest crypto_ids) <;>
      simp [get_current_prices, htr]
  · intro h
    simp [get_current_prices, h]
  · intro h
    simp [get_current_prices, h]
  · intro body h
    simp [get_current_prices, h]

/-- C7 witness: the spec scenario of a snapshot fetch for bitcoin and
ethereum against a malformed response, which yields the empty table from
the single comma-joined request. -/
theorem claim_C7_snapshot_single_request_empty_on_failure_witness :
    (get_current_prices ["bitcoin", "ethereum"] (fun _ => SnapshotResponse.badJson)).1 =
      [mkSnapshotRequest ["bitcoin", "ethereum"]] ∧
    (mkSnapshotRequest ["bitcoin", "ethereum"]).ids =
      String.intercalate "," ["bitcoin", "ethereum"] ∧
    ((fun _ => SnapshotResponse.badJson) (mkSnapshotRequest ["bitcoin", "ethereum"]) =
        SnapshotResponse.transportError →
      (get_current_prices ["bitcoin", "ethereum"] (fun _ => SnapshotResponse.badJson)).2 = []) ∧
    ((fun _ => SnapshotResponse.badJson) (mkSnapshotRequest ["bitcoin", "ethereum"]) =
        SnapshotResponse.badJson →
      (get_current_prices ["bitcoin", "ethereum"] (fun _ => SnapshotResponse.badJson)).2 = []) ∧
    (∀ body, (fun _ => SnapshotResponse.badJson) (mkSnapshotRequest ["bitcoin", "ethereum"]) =
        SnapshotResponse.ok body →
      (get_current_prices ["bitcoin", "ethereum"] (fun _ => SnapshotResponse.badJson)).2 = body) :=
  claim_C7_snapshot_single_request_empty_on_failure ["bitcoin", "ethereum"]
    (fun _ => SnapshotResponse.badJson) (by simp)

/-- When every fetch fails at the transport level the orchestrator loop
returns its accumulator unchanged. -/
theorem gmcGo_all_fail (L : ℚ → ℝ) (fetch : String → HttpResult) :
    ∀ (d : List (String × String)) (acc : List (String × List Record)),
      (∀ q ∈ d, fetch q.1 = HttpResult.transportError) →
      gmcGo L fetch d acc = Except.ok acc := by
  intro d
  induction d with
  | nil => intro acc _; rfl
  | cons hd rest ih =>
      intro acc hf
      obtain ⟨cid, sym⟩ := hd
      simp only [gmcGo]
      have hok : get_historical_data L (fetch cid) = Except.ok [] := by
        rw [hf _ (List.mem_cons_self _ _)]
        rfl
      rw [hok, ok_bind]
      simpa using ih acc (fun q hq => hf q (List.mem_cons_of_mem _ hq))

/-- C9: save_data on the empty collection raises the uncaught ValueError
from pd.concat instead of writing zero files and returning; the
nothing-collected notice for a zero-success batch appears only because the
main driver guards the save call behind its non-emptiness check, under
which it returns the notice without any exception. -/
theorem claim_C9_empty_save_raises :
    (∀ pfx ts, save_data [] pfx ts = Except.error PyErr.valueError) ∧
    (∀ (L : ℚ → ℝ) (fetch : String → HttpResult) (ts : String),
      (∀ q ∈ CRYPTOCURRENCIES, fetch q.1 = HttpResult.transportError) →
      mainDriver L fetch ts = Except.ok MainResult.nothingCollected) := by
  constructor
  · intro pfx ts
    rfl
  · intro L fetch ts hf
    have hgmc : get_multiple_cryptos L fetch CRYPTOCURRENCIES = Except.ok [] :=
      gmcGo_all_fail L fetch CRYPTOCURRENCIES [] hf
    simp only [mainDriver]
    rw [hgmc, ok_bind]
    rfl

/-- C9 witness: the empty-collection save raises ValueError, and a run in
which every configured fetch fails ends in the nothing-collected notice. -/
theorem claim_C9_empty_save_raises_witness :
    save_data [] "crypto_data" "20240101_000000" = Except.error PyErr.valueError ∧
    mainDriver LW (fun _ => HttpResult.transportError) "20240101_000000" =
      Except.ok MainResult.nothingCollected :=
  ⟨claim_C9_empty_save_raises.1 "crypto_data" "20240101_000000",
   claim_C9_empty_save_raises.2 LW (fun _ => HttpResult.transportError)
     "20240101_000000" (fun q _ => rfl)⟩

/-- Two equal character lists that decompose with a common known-length
suffix position agree on the middle segment. -/
theorem middle_eq_of_append_eq {a b t1 t2 c : List Char}
    (h : a ++ (t1 ++ c) = b ++ (t2 ++ c)) (hlen : t1.length = t2.length) :
    t1 = t2 := by
  have h2 := (List.append_inj' h (by simp [hlen])).2
  exact (List.append_inj' h2 rfl).1

/-- Every file path written by save_data decomposes around the interpolated
timestamp. -/
theorem mkFilepath_decomp (px s ts : String) :
    mkFilepath (mkFilename px s ts) =
      (RAW_DATA_DIR ++ "/" ++ px ++ "_" ++ s ++ "_") ++ (ts ++ ".csv") := by
  simp only [mkFilepath, mkFilename, String.append_assoc]

/-- Two save_data file paths built from equal-length timestamps can only
coincide when the timestamps coincide; the code always interpolates the
fixed-length strftime timestamp, so this covers every name it writes. -/
theorem mkFilepath_ts_inj (px1 s1 ts1 px2 s2 ts2 : String)
    (h : mkFilepath (mkFilename px1 s1 ts1) = mkFilepath (mkFilename px2 s2 ts2))
    (hlen : ts1.length = ts2.length) : ts1 = ts2 := by
  rw [mkFilepath_decomp, mkFilepath_decomp] at h
  have hdata := congrArg String.data h
  simp only [String.data_append] at hdata
  apply String.ext
  exact middle_eq_of_append_eq hdata hlen

/-- Shape of a successful save_data call: the per-asset files in dict
order, then the combined file, all named through the shared timestamp. -/
theorem save_data_shape (d : List (String × List Record)) (px ts : String)
    (w : List (String × FileContent)) (h : save_data d px ts = Except.ok w) :
    w = d.map (fun p => (mkFilepath (mkFilename px p.1 ts), FileContent.single p.2)) ++
      [(mkFilepath (mkFilename px "combined" ts),
        FileContent.stacked (d.flatMap (fun p => p.2.map (fun r => (p.1, r)))))] := by
  cases d with
  | nil => exact Except.noConfusion h
  | cons a l =>
      simp only [save_data, List.isEmpty_cons, Bool.false_eq_true, if_false] at h
      injection h with h'
      exact h'.symm

/-- All names of a successful save_data call interpolate its timestamp. -/
theorem save_data_names (d : List (String × List Record)) (px ts : String)
    (w : List (String × FileContent)) (h : save_data d px ts = Except.ok w) :
    ∀ f ∈ w.map Prod.fst, ∃ s, f = mkFilepath (mkFilename px s ts) := by
  intro f hf
  rw [save_data_shape d px ts w h] at hf
  simp only [List.map_append, List.map_map, List.mem_append, List.mem_map,
    Function.comp, List.map_cons, List.map_nil, List.mem_singleton] at hf
  rcases hf with ⟨p, _, rfl⟩ | rfl
  · exact ⟨p.1, rfl⟩
  · exact ⟨"combined", rfl⟩

/-- C6: on a non-empty collection save_data succeeds, names every written
file through the one timestamp generated for that invocation, and two
invocations with different same-length timestamps (the code always uses
the fixed-length strftime format) write disjoint name sets; with the same
collection the two calls carry the same logical content. -/
theorem claim_C6_timestamp_shared_and_disjoint
    (d1 d2 : List (String × List Record)) (px1 px2 ts1 ts2 : String)
    (hd1 : d1 ≠ []) (hd2 : d2 ≠ [])
    (hlen : ts1.length = ts2.length) (hne : ts1 ≠ ts2) :
    ∃ w1 w2, save_data d1 px1 ts1 = Except.ok w1 ∧
      save_data d2 px2 ts2 = Except.ok w2 ∧
      (∀ f ∈ w1.map Prod.fst, ∃ s, f = mkFilepath (mkFilename px1 s ts1)) ∧
      (∀ f ∈ w2.map Prod.fst, ∃ s, f = mkFilepath (mkFilename px2 s ts2)) ∧
      (∀ f ∈ w1.map Prod.fst, f ∉ w2.map Prod.fst) ∧
      (d1 = d2 → w1.map Prod.snd = w2.map Prod.snd) := by
  have hem1 : d1.isEmpty = false := by
    cases d1 with
    | nil => exact absurd rfl hd1
    | cons a l => rfl
  have hem2 : d2.isEmpty = false := by
    cases d2 with
    | nil => exact absurd rfl hd2
    | cons a l => rfl
  have h1 : save_data d1 px1 ts1 = Except.ok
      (d1.map (fun p => (mkFilepath (mkFilename px1 p.1 ts1), FileContent.single p.2)) ++
        [(mkFilepath (mkFilename px1 "combined" ts1),
          FileContent.stacked (d1.flatMap (fun p => p.2.map (fun r => (p.1, r)))))]) := by
    simp [save_data, hem1]
  have h2 : save_data d2 px2 ts2 = Except.ok
      (d2.map (fun p => (mkFilepath (mkFilename px2 p.1 ts2), FileContent.single p.2)) ++
        [(mkFilepath (mkFilename px2 "combined" ts2),
          FileContent.stacked (d2.flatMap (fun p => p.2.map (fun r => (p.1, r)))))]) := by
    simp [save_data, hem2]
  refine ⟨_, _, h1, h2, save_data_names _ _ _ _ h1, save_data_names _ _ _ _ h2, ?_, ?_⟩
  · intro f hf hf2
    obtain ⟨s1, rfl⟩ := save_data_names _ _ _ _ h1 f hf
    obtain ⟨s2, heq⟩ := save_data_names _ _ _ _ h2 _ hf2
    exact hne (mkFilepath_ts_inj px1 s1 ts1 px2 s2 ts2 heq hlen)
  · intro hdd
    subst hdd
    simp [List.map_append, List.map_map, Function.comp]

/-- C6 witness: two saves of the same one-asset collection at consecutive
strftime timestamps succeed, share each its timestamp across its names, and
collide on no file name while carrying the same content. -/
theorem claim_C6_timestamp_shared_and_disjoint_witness :
    ∃ w1 w2, save_data [("BTC", [recW])] "crypto_data" "20240101_000000" = Except.ok w1 ∧
      save_data [("BTC", [recW])] "crypto_data" "20240101_000001" = Except.ok w2 ∧
      (∀ f ∈ w1.map Prod.fst, ∃ s,
        f = mkFilepath (mkFilename "crypto_data" s "20240101_000000")) ∧
      (∀ f ∈ w2.map Prod.fst, ∃ s,
        f = mkFilepath (mkFilename "crypto_data" s "20240101_000001")) ∧
      (∀ f ∈ w1.map Prod.fst, f ∉ w2.map Prod.fst) ∧
      ([("BTC", [recW])] = [("BTC", [recW])] → w1.map Prod.snd = w2.map Prod.snd) :=
  claim_C6_timestamp_shared_and_disjoint [("BTC", [recW])] [("BTC", [recW])]
    "crypto_data" "crypto_data" "20240101_000000" "20240101_000001"
    (by simp) (by simp) rfl (by decide)
